import Mathlib

/-!
Verification of the session/state core and scoring logic of the
SIMP-GeoGuesser party game (`app.py`).

The embedding translates the in-memory "database" (`Round`, `GameState`),
the helper functions (`normalize_player_name`, `player_exists`,
`pixel_distance`, `score_from_distance`) and the state-mutating request
handlers (`api_add_player`, `api_guess`, the `host` form actions
`remove_player` / `add_round` / `reset_game` / `goto_round`, the
`set_answer` handler) and the `leaderboard` computation into Lean.

Conventions of the embedding:
* Python dicts keyed by player name become association lists with unique
  keys (`alInsert` overwrites in place, `alErase` models `dict.pop`).
* Each mutating handler becomes a function `GameState → GameState × Option Err`:
  the returned state is the (possibly unchanged) global `STATE` after the
  handler ran, and the `Option Err` component is the structured error the
  handler reported, if any.  Error kinds name the conditions in the code.
* JSON-boundary validation that cannot be expressed after typing the
  arguments (`round_id` missing from the payload, non-integer `x`/`y`)
  is outside the core: arguments arrive as `String` / `Int`.
* The round token produced by `uuid.uuid4().hex` is modelled as an
  explicit argument of `addRound` (the generator is an external
  collaborator); float arithmetic (`math.exp`, `math.hypot`, `round`)
  is modelled over the reals.
-/

namespace GeoGuesser

/-- Structured error kinds reported by the handlers in `app.py`
(each corresponds to one error message string in the code). -/
inductive Err where
  | emptyName            -- "Player name cannot be empty."
  | duplicatePlayer      -- "That player name already exists."
  | invalidPlayer        -- "Invalid player."
  | roundNotFound        -- get_round -> abort(404)
  | answerNotSet         -- "Answer not set for this round."
  | roundIndexOutOfRange -- "Invalid round index."
  deriving DecidableEq, Repr

/-- Guess mapping of a round: association list from player name to (x, y),
modelling the Python `dict` `guesses` (keys unique). -/
abbrev Guesses := List (String × (Int × Int))

/-- `rd.guesses[player]`-style lookup (first entry with the key, as in a dict). -/
def lookupKey {β : Type} (k : String) : List (String × β) → Option β
  | [] => none
  | e :: es => if e.1 = k then some e.2 else lookupKey k es

/-- `rd.guesses[player] = (x, y)`: dict write — overwrite in place if the key
exists, otherwise append (insertion order of a Python dict). -/
def alInsert (k : String) (v : Int × Int) : Guesses → Guesses
  | [] => [(k, v)]
  | e :: es => if e.1 = k then (k, v) :: es else e :: alInsert k v es

/-- `rd.guesses.pop(name, None)`: remove the entry with that key, if any
(a dict holds at most one entry per key). -/
def alErase (k : String) : Guesses → Guesses
  | [] => []
  | e :: es => if e.1 = k then alErase k es else e :: alErase k es

/-- `Round` dataclass from `app.py`. -/
structure Round where
  id : String
  map_filename : String
  map_size : Int × Int
  answer_xy : Option (Int × Int) := none
  guesses : Guesses := []
  deriving DecidableEq, Repr

/-- `GameState` dataclass from `app.py`. -/
structure GameState where
  players : List String := []
  rounds : List Round := []
  current_round_index : Int := 0
  deriving DecidableEq, Repr

/-- `STATE = GameState()`: the initial, empty session. -/
def initState : GameState := {}

/-- Python `str.strip()`: remove leading and trailing whitespace. -/
def pyStrip (s : String) : String :=
  ⟨((s.data.dropWhile Char.isWhitespace).reverse.dropWhile Char.isWhitespace).reverse⟩

/-- Python `str.casefold()`, modelled as character-wise lowercasing. -/
def pyCasefold (s : String) : String :=
  ⟨s.data.map Char.toLower⟩

/-- `normalize_player_name`: `(name or "").strip().casefold()`. -/
def normalize_player_name (name : String) : String :=
  pyCasefold (pyStrip name)

/-- `player_exists`: some registered player's name is fold-equal to `name`. -/
def player_exists (name : String) (players : List String) : Bool :=
  players.any (fun p => normalize_player_name p == normalize_player_name name)

/-- `api_add_player` (identical check structure in the `host` form action
`add_player`): trim, reject empty, reject fold-equal duplicates, else append
the trimmed name. -/
def addPlayer (raw : String) (s : GameState) : GameState × Option Err :=
  let name := pyStrip raw
  if name = "" then (s, some .emptyName)
  else if player_exists name s.players then (s, some .duplicatePlayer)
  else ({ s with players := s.players ++ [name] }, none)

/-- `host` action `remove_player`: remove the first exact-match list entry
if present, then pop that exact name from every round's guess dict.
Never reports an error. -/
def removePlayer (name : String) (s : GameState) : GameState × Option Err :=
  let players := if name ∈ s.players then s.players.erase name else s.players
  let rounds := s.rounds.map (fun rd => { rd with guesses := alErase name rd.guesses })
  ({ s with players := players, rounds := rounds }, none)

/-- `host` action `add_round`: append a fresh round (token from the uuid
generator passed in as `tok`, dimensions from the decoded image) with no
answer and no guesses, and auto-switch to it. The code performs no
validation of `w`/`h`. -/
def addRound (tok mapRef : String) (w h : Int) (s : GameState) : GameState × Option Err :=
  let rd : Round := { id := tok, map_filename := mapRef, map_size := (w, h) }
  ({ s with rounds := s.rounds ++ [rd],
            current_round_index := (s.rounds.length : Int) }, none)

/-- `next((x for x in STATE.rounds if x.id == round_id), None)`
as used by `get_round`. -/
def findRound (rid : String) : List Round → Option Round
  | [] => none
  | rd :: rds => if rd.id = rid then some rd else findRound rid rds

/-- In-place mutation of the round object returned by `get_round`:
rewrite the first round whose id matches. -/
def updateFirst (rid : String) (f : Round → Round) : List Round → List Round
  | [] => []
  | rd :: rds => if rd.id = rid then f rd :: rds else rd :: updateFirst rid f rds

/-- `set_answer` POST handler: 404 if the token is unknown, otherwise
overwrite `answer_xy` with the submitted coordinates. -/
def setAnswer (rid : String) (x y : Int) (s : GameState) : GameState × Option Err :=
  match findRound rid s.rounds with
  | none => (s, some .roundNotFound)
  | some _ =>
    let rounds := updateFirst rid (fun rd => { rd with answer_xy := some (x, y) }) s.rounds
    ({ s with rounds := rounds }, none)

/-- `api_guess`: 404 on unknown round token; reject if the round's answer
is not set; reject a falsy or unregistered player name (exact membership
test `player in STATE.players`); otherwise write the guess. -/
def recordGuess (rid player : String) (x y : Int) (s : GameState) : GameState × Option Err :=
  match findRound rid s.rounds with
  | none => (s, some .roundNotFound)
  | some rd =>
    match rd.answer_xy with
    | none => (s, some .answerNotSet)
    | some _ =>
      if player = "" ∨ player ∉ s.players then (s, some .invalidPlayer)
      else
        let rounds := updateFirst rid
          (fun r => { r with guesses := alInsert player (x, y) r.guesses }) s.rounds
        ({ s with rounds := rounds }, none)

/-- `host` action `goto_round`: reject indices outside `[0, len(rounds))`. -/
def gotoRound (idx : Int) (s : GameState) : GameState × Option Err :=
  if idx < 0 ∨ (s.rounds.length : Int) ≤ idx then (s, some .roundIndexOutOfRange)
  else ({ s with current_round_index := idx }, none)

/-- `host` action `reset_game`: clear players, rounds and the index. -/
def resetGame (_s : GameState) : GameState × Option Err :=
  ({ players := [], rounds := [], current_round_index := 0 }, none)

/-! ### Scoring engine (float arithmetic modelled over ℝ) -/

/-- `pixel_distance`: `math.hypot(a[0] - b[0], a[1] - b[1])`. -/
noncomputable def pixel_distance (a b : Int × Int) : ℝ :=
  Real.sqrt (((a.1 - b.1 : Int) : ℝ) ^ 2 + ((a.2 - b.2 : Int) : ℝ) ^ 2)

/-- `score_from_distance`: exponential decay normalized by the map
diagonal, floored at 1 point. `int(round(raw))` is modelled by `round`. -/
noncomputable def score_from_distance (d : ℝ) (map_size : Int × Int) : ℤ :=
  let diag := Real.sqrt ((map_size.1 : ℝ) ^ 2 + (map_size.2 : ℝ) ^ 2)
  let scale := max 1 (diag / 2)
  let raw := 1000 * Real.exp (-d / scale)
  max 1 (round raw)

/-- Modelled from the spec (§4.2), for comparison with the code's
`score_from_distance`: `max(1, round(1000 * exp(-d / max(1.0, sqrt(w²+h²)/2))))`. -/
noncomputable def scoreSpec (d : ℝ) (w h : Int) : ℤ :=
  max 1 (round (1000 * Real.exp (-d / max 1 (Real.sqrt ((w : ℝ) ^ 2 + (h : ℝ) ^ 2) / 2))))

/-! ### Leaderboard -/

/-- `totals = {p: 0 for p in STATE.players}`: dict comprehension — a key
already present is overwritten (same value 0 here), a new key is appended. -/
def initTotals (players : List String) : List (String × Int) :=
  players.foldl
    (fun acc p =>
      if acc.any (fun e => e.1 == p) then acc.map (fun e => if e.1 == p then (e.1, (0 : Int)) else e)
      else acc ++ [(p, 0)])
    []

/-- `totals[p] += v`: add `v` to the entry with key `p` (the key is always
present when the code executes this, since `totals` was seeded with every
registered player). -/
def bump (p : String) (v : Int) (l : List (String × Int)) : List (String × Int) :=
  l.map (fun e => if e.1 == p then (e.1, e.2 + v) else e)

/-- One iteration of the leaderboard's outer loop: a round without an
answer is skipped (`continue`); otherwise every registered player with a
guess gets its score accumulated into `totals`. -/
noncomputable def leaderboardStep (players : List String)
    (totals : List (String × Int)) (rd : Round) : List (String × Int) :=
  match rd.answer_xy with
  | none => totals
  | some a =>
    players.foldl
      (fun acc p =>
        match lookupKey p rd.guesses with
        | some g => bump p (score_from_distance (pixel_distance g a) rd.map_size) acc
        | none => acc)
      totals

/-- The `totals` dict after the whole loop over `STATE.rounds`. -/
noncomputable def leaderboardTotals (s : GameState) : List (String × Int) :=
  s.rounds.foldl (leaderboardStep s.players) (initTotals s.players)

/-- `ranked = sorted(totals.items(), key=lambda kv: kv[1], reverse=True)`:
a stable sort, descending by total. -/
noncomputable def ranked (s : GameState) : List (String × Int) :=
  (leaderboardTotals s).mergeSort (fun a b => decide (b.2 ≤ a.2))

/-- `row["scores"][p]`: `(score, int(round(distance)))` when the player
guessed, `None` ("no guess") otherwise. -/
noncomputable def roundCell (rd : Round) (a : Int × Int) (p : String) : Option (Int × Int) :=
  (lookupKey p rd.guesses).map
    (fun g => (score_from_distance (pixel_distance g a) rd.map_size, round (pixel_distance g a)))

/-- The per-round score rows of the leaderboard page: one row per round
with an answer set (unanswered rounds are skipped), each row holding the
`scores` cell for every registered player. -/
noncomputable def roundRows (s : GameState) : List (List (String × Option (Int × Int))) :=
  s.rounds.filterMap
    (fun rd => rd.answer_xy.map (fun a => s.players.map (fun p => (p, roundCell rd a p))))

/-- Specification-level per-round contribution of player `p`: the score of
their guess in a round with an answer, `0` otherwise. -/
noncomputable def contribOf (p : String) (rd : Round) : Int :=
  match rd.answer_xy with
  | none => 0
  | some a =>
    match lookupKey p rd.guesses with
    | none => 0
    | some g => score_from_distance (pixel_distance g a) rd.map_size

/-- Specification-level total for player `p`. -/
noncomputable def totalFor (s : GameState) (p : String) : Int :=
  (s.rounds.map (contribOf p)).sum

/-! ### Reachable session states -/

/-- States reachable from the empty session through the public mutating
operations (each step keeps whatever state the handler left behind,
whether or not it reported an error). -/
inductive Reachable : GameState → Prop where
  | init : Reachable initState
  | addPlayer (name : String) {s : GameState} :
      Reachable s → Reachable (addPlayer name s).1
  | removePlayer (name : String) {s : GameState} :
      Reachable s → Reachable (removePlayer name s).1
  | addRound (tok mapRef : String) (w h : Int) {s : GameState} :
      Reachable s → Reachable (addRound tok mapRef w h s).1
  | setAnswer (rid : String) (x y : Int) {s : GameState} :
      Reachable s → Reachable (setAnswer rid x y s).1
  | recordGuess (rid p : String) (x y : Int) {s : GameState} :
      Reachable s → Reachable (recordGuess rid p x y s).1
  | gotoRound (idx : Int) {s : GameState} :
      Reachable s → Reachable (gotoRound idx s).1
  | reset {s : GameState} : Reachable s → Reachable (resetGame s).1

/-- Invariant: every key of every round's guess mapping is a currently
registered player name. -/
def GuessKeysRegistered (s : GameState) : Prop :=
  ∀ rd ∈ s.rounds, ∀ e ∈ rd.guesses, e.1 ∈ s.players

/-! ### Helper lemmas -/

theorem round_le_round {x y : ℝ} (h : x ≤ y) : round x ≤ round y := by
  rw [round_eq, round_eq]
  exact Int.floor_le_floor (by linarith)

theorem score_scale_pos (map_size : Int × Int) :
    (0 : ℝ) < max 1 (Real.sqrt ((map_size.1 : ℝ) ^ 2 + (map_size.2 : ℝ) ^ 2) / 2) :=
  lt_of_lt_of_le one_pos (le_max_left _ _)

/-- C1: The scoring function agrees with the spec's formula
`max(1, round(1000 * exp(-d / max(1.0, sqrt(w²+h²)/2))))` (an integer by
type), and a distance of 0 scores exactly 1000 points. -/
theorem score_matches_spec_and_zero_distance_scores_1000
    (d : ℝ) (w h : Int) (hd : 0 ≤ d) (hw : 0 < w) (hh : 0 < h) :
    score_from_distance d (w, h) = scoreSpec d w h ∧
    score_from_distance 0 (w, h) = 1000 := by
  constructor
  · rfl
  · show max 1 (round ((1000 : ℝ) * Real.exp (-0 / _))) = 1000
    rw [neg_zero, zero_div, Real.exp_zero, mul_one]
    rw [show ((1000 : ℝ) = ((1000 : ℤ) : ℝ)) by norm_num, round_intCast]
    decide

theorem score_matches_spec_witness :
    (0 : ℝ) ≤ 0 ∧ (0 : Int) < 1000 ∧ (0 : Int) < 500 ∧
    score_from_distance 0 (1000, 500) = 1000 :=
  ⟨le_rfl, by decide, by decide,
    (score_matches_spec_and_zero_distance_scores_1000 0 1000 500 le_rfl
      (by decide) (by decide)).2⟩

/-- C9: The score is monotonically non-increasing in the distance, for a fixed
map size. -/
theorem score_antitone_in_distance
    (d₁ d₂ : ℝ) (w h : Int) (hd₁ : 0 ≤ d₁) (hlt : d₁ < d₂) :
    score_from_distance d₂ (w, h) ≤ score_from_distance d₁ (w, h) := by
  show max 1 (round ((1000 : ℝ) * Real.exp (-d₂ / _)))
      ≤ max 1 (round ((1000 : ℝ) * Real.exp (-d₁ / _)))
  have hs := score_scale_pos ((w, h) : Int × Int)
  apply max_le_max le_rfl
  apply round_le_round
  have hexp : Real.exp (-d₂ / _) ≤ Real.exp (-d₁ / _) :=
    Real.exp_le_exp.mpr ((div_le_div_iff_of_pos_right hs).mpr (neg_le_neg hlt.le))
  exact mul_le_mul_of_nonneg_left hexp (by norm_num)

theorem score_antitone_witness :
    (0 : ℝ) ≤ 0 ∧ (0 : ℝ) < 1 ∧
    score_from_distance 1 (3, 4) ≤ score_from_distance 0 (3, 4) :=
  ⟨le_rfl, one_pos, score_antitone_in_distance 0 1 3 4 le_rfl one_pos⟩

theorem lookupKey_alErase_self (k : String) (l : Guesses) :
    lookupKey k (alErase k l) = none := by
  induction l with
  | nil => rfl
  | cons e es ih =>
    by_cases hek : e.1 = k
    · simpa [alErase, hek] using ih
    · simpa [alErase, hek, lookupKey] using ih

theorem lookupKey_alErase_ne (p k : String) (hpk : p ≠ k) (l : Guesses) :
    lookupKey p (alErase k l) = lookupKey p l := by
  have hkp : k ≠ p := Ne.symm hpk
  induction l with
  | nil => rfl
  | cons e es ih =>
    by_cases hek : e.1 = k
    · have hep : e.1 ≠ p := by rw [hek]; exact hkp
      simpa [alErase, hek, lookupKey, hep, hkp] using ih
    · by_cases hep : e.1 = p
      · simp [alErase, hek, lookupKey, hep, hpk]
      · simpa [alErase, hek, lookupKey, hep] using ih

theorem bump_zero (q : String) (l : List (String × Int)) : bump q 0 l = l := by
  unfold bump
  induction l with
  | nil => rfl
  | cons e es ih =>
    rw [List.map_cons, ih]
    by_cases he : e.1 = q <;> simp [he, Prod.ext_iff]

theorem bump_map (q : String) (v : Int) (xs : List String) (g : String → Int) :
    bump q v (xs.map fun p => (p, g p))
      = xs.map fun p => (p, g p + if p = q then v else 0) := by
  rw [bump, List.map_map]
  refine List.map_congr_left fun p _ => ?_
  by_cases hpq : p = q <;> simp [hpq]

theorem foldl_bump_map (qs xs : List String) (g c : String → Int) :
    qs.foldl (fun acc q => bump q (c q) acc) (xs.map fun p => (p, g p))
      = xs.map fun p => (p, g p + (qs.map fun q => if p = q then c q else 0).sum) := by
  induction qs generalizing g with
  | nil => simp
  | cons q qs ih =>
    rw [List.foldl_cons, bump_map, ih (fun p => g p + if p = q then c q else 0)]
    refine List.map_congr_left fun p _ => ?_
    simp [add_assoc]

theorem indicator_sum_of_not_mem (p : String) (c : String → Int) (qs : List String)
    (hp : p ∉ qs) : (qs.map fun q => if p = q then c q else 0).sum = 0 := by
  induction qs with
  | nil => rfl
  | cons q qs ih =>
    have hpq : p ≠ q := fun hc => hp (hc ▸ List.mem_cons_self q qs)
    have hrest : p ∉ qs := fun hc => hp (List.mem_cons_of_mem q hc)
    simp [hpq, ih hrest]

theorem indicator_sum (p : String) (c : String → Int) (qs : List String)
    (hnd : qs.Nodup) (hp : p ∈ qs) :
    (qs.map fun q => if p = q then c q else 0).sum = c p := by
  induction qs with
  | nil => cases hp
  | cons q qs ih =>
    rcases List.mem_cons.mp hp with hpq | hmem
    · have hq : q ∉ qs := (List.nodup_cons.mp hnd).1
      subst hpq
      simp [indicator_sum_of_not_mem p c qs hq]
    · have hpq : p ≠ q := fun hc => (List.nodup_cons.mp hnd).1 (hc ▸ hmem)
      simp [hpq, ih (List.nodup_cons.mp hnd).2 hmem]

theorem initTotals_aux (ps : List String) (acc : List (String × Int))
    (hnd : ps.Nodup) (hdisj : ∀ p ∈ ps, ∀ e ∈ acc, e.1 ≠ p) :
    ps.foldl
        (fun acc p =>
          if acc.any (fun e => e.1 == p) then
            acc.map (fun e => if e.1 == p then (e.1, (0 : Int)) else e)
          else acc ++ [(p, 0)])
        acc
      = acc ++ ps.map (fun p => (p, 0)) := by
  induction ps generalizing acc with
  | nil => simp
  | cons p ps ih =>
    have hnew : acc.any (fun e => e.1 == p) = false :=
      List.any_eq_false.mpr fun e he => by
        simpa using hdisj p (List.mem_cons_self p ps) e he
    rw [List.foldl_cons, hnew]
    simp only [Bool.false_eq_true, if_false]
    rw [ih (acc ++ [(p, 0)]) (List.nodup_cons.mp hnd).2 ?_]
    · simp
    · intro q hq e he
      rcases List.mem_append.mp he with hacc | hsing
      · exact hdisj q (List.mem_cons_of_mem p hq) e hacc
      · rw [List.mem_singleton] at hsing
        intro hc
        apply (List.nodup_cons.mp hnd).1
        have hep : e.1 = p := by rw [hsing]
        rw [← hep, hc]
        exact hq

theorem initTotals_eq_map (players : List String) (hnd : players.Nodup) :
    initTotals players = players.map (fun p => (p, 0)) := by
  rw [initTotals, initTotals_aux players [] hnd (by simp), List.nil_append]

theorem leaderboardStep_answered (players : List String) (totals : List (String × Int))
    (rd : Round) (a : Int × Int) (ha : rd.answer_xy = some a) :
    leaderboardStep players totals rd
      = players.foldl (fun acc q => bump q (contribOf q rd) acc) totals := by
  simp only [leaderboardStep, ha]
  have hfun : (fun (acc : List (String × Int)) q =>
        match lookupKey q rd.guesses with
        | some g => bump q (score_from_distance (pixel_distance g a) rd.map_size) acc
        | none => acc)
      = fun acc q => bump q (contribOf q rd) acc := by
    funext acc q
    cases hl : lookupKey q rd.guesses with
    | none => simp [contribOf, ha, hl, bump_zero]
    | some g => simp [contribOf, ha, hl]
  rw [hfun]

theorem leaderboardStep_unanswered (players : List String) (totals : List (String × Int))
    (rd : Round) (ha : rd.answer_xy = none) :
    leaderboardStep players totals rd = totals := by
  simp [leaderboardStep, ha]

theorem contribOf_unanswered (p : String) (rd : Round) (ha : rd.answer_xy = none) :
    contribOf p rd = 0 := by
  simp [contribOf, ha]

theorem foldl_step_map (players : List String) (hnd : players.Nodup)
    (rounds : List Round) (g : String → Int) :
    rounds.foldl (leaderboardStep players) (players.map fun p => (p, g p))
      = players.map fun p => (p, g p + (rounds.map (fun rd => contribOf p rd)).sum) := by
  induction rounds generalizing g with
  | nil => simp
  | cons rd rds ih =>
    have hstep : leaderboardStep players (players.map fun p => (p, g p)) rd
        = players.map fun p => (p, g p + contribOf p rd) := by
      cases ha : rd.answer_xy with
      | none =>
        rw [leaderboardStep_unanswered players _ rd ha]
        refine List.map_congr_left fun p _ => ?_
        rw [contribOf_unanswered p rd ha, add_zero]
      | some a =>
        rw [leaderboardStep_answered players _ rd a ha,
          foldl_bump_map players players g (fun q => contribOf q rd)]
        refine List.map_congr_left fun p hp => ?_
        rw [indicator_sum p (fun q => contribOf q rd) players hnd hp]
    rw [List.foldl_cons, hstep, ih (fun p => g p + contribOf p rd)]
    refine List.map_congr_left fun p _ => ?_
    simp [add_assoc]

theorem leaderboardTotals_eq_map (s : GameState) (hnd : s.players.Nodup) :
    leaderboardTotals s = s.players.map (fun p => (p, totalFor s p)) := by
  rw [leaderboardTotals, initTotals_eq_map s.players hnd]
  rw [show (s.players.map fun p => (p, (0 : Int)))
      = s.players.map fun p => (p, (fun _ => (0 : Int)) p) from rfl]
  rw [foldl_step_map s.players hnd s.rounds (fun _ => 0)]
  refine List.map_congr_left fun p _ => ?_
  rw [totalFor]
  simp

theorem lookupKey_map_self {β : Type} (g : String → β) (p : String) (xs : List String)
    (hp : p ∈ xs) : lookupKey p (xs.map fun q => (q, g q)) = some (g p) := by
  induction xs with
  | nil => cases hp
  | cons q qs ih =>
    by_cases hqp : q = p
    · subst hqp
      simp [lookupKey]
    · have hmem : p ∈ qs := by
        rcases List.mem_cons.mp hp with hc | hc
        · exact absurd hc.symm hqp
        · exact hc
      simp [lookupKey, hqp, ih hmem]

theorem foldl_step_filter (players : List String) (rounds : List Round)
    (totals : List (String × Int)) :
    (rounds.filter (fun rd => rd.answer_xy.isSome)).foldl (leaderboardStep players) totals
      = rounds.foldl (leaderboardStep players) totals := by
  induction rounds generalizing totals with
  | nil => rfl
  | cons rd rds ih =>
    cases ha : rd.answer_xy with
    | some a =>
      rw [List.filter_cons]
      simp only [ha, Option.isSome_some, if_true, List.foldl_cons]
      exact ih _
    | none =>
      rw [List.filter_cons]
      simp only [ha, Option.isSome_none, Bool.false_eq_true, if_false, List.foldl_cons]
      rw [leaderboardStep_unanswered players totals rd ha]
      exact ih _

/-- C2: The leaderboard's totals list holds exactly the currently
registered players (as a permutation), is sorted by total score
descending, breaks ties stably by original registration order (a pair of
players with equal totals keeps its registration order), and rounds whose
answer is unset are skipped entirely: filtering them out of the session
does not change the ranking. -/
theorem leaderboard_totals_ordering (s : GameState) (hnd : s.players.Nodup) :
    ((ranked s).map Prod.fst).Perm s.players ∧
    (ranked s).Pairwise (fun a b => b.2 ≤ a.2) ∧
    (∀ p q : String, [p, q].Sublist s.players → totalFor s p = totalFor s q →
      [(p, totalFor s p), (q, totalFor s q)].Sublist (ranked s)) ∧
    ranked { s with rounds := s.rounds.filter (fun rd => rd.answer_xy.isSome) }
      = ranked s := by
  have htrans : ∀ a b c : String × Int,
      (fun a b : String × Int => decide (b.2 ≤ a.2)) a b →
      (fun a b : String × Int => decide (b.2 ≤ a.2)) b c →
      (fun a b : String × Int => decide (b.2 ≤ a.2)) a c := by
    intro a b c hab hbc
    simp only [decide_eq_true_eq] at *
    exact le_trans hbc hab
  have htotal : ∀ a b : String × Int,
      ((fun a b : String × Int => decide (b.2 ≤ a.2)) a b
        || (fun a b : String × Int => decide (b.2 ≤ a.2)) b a) = true := by
    intro a b
    simp [le_total]
  refine ⟨?_, ?_, ?_, ?_⟩
  · have hperm : (ranked s).Perm (leaderboardTotals s) := List.mergeSort_perm _ _
    have hm := hperm.map Prod.fst
    rw [leaderboardTotals_eq_map s hnd] at hm
    simpa [List.map_map, Function.comp_def] using hm
  · have hs := List.sorted_mergeSort htrans htotal (leaderboardTotals s)
    exact hs.imp fun h => by simpa using h
  · intro p q hsub heq
    have hmap : [(p, totalFor s p), (q, totalFor s q)].Sublist
        (s.players.map fun r => (r, totalFor s r)) := by
      simpa using hsub.map (fun r => (r, totalFor s r))
    rw [← leaderboardTotals_eq_map s hnd] at hmap
    have hab : (fun a b : String × Int => decide (b.2 ≤ a.2))
        (p, totalFor s p) (q, totalFor s q) := by
      simp [heq]
    exact List.pair_sublist_mergeSort htrans htotal hab hmap
  · have hT : leaderboardTotals
          { s with rounds := s.rounds.filter (fun rd => rd.answer_xy.isSome) }
        = leaderboardTotals s := by
      unfold leaderboardTotals
      exact foldl_step_filter s.players s.rounds (initTotals s.players)
    unfold ranked
    rw [hT]

theorem leaderboard_totals_witness :
    (addPlayer "Bob" initState).1.players.Nodup ∧
    ((ranked (addPlayer "Bob" initState).1).map Prod.fst).Perm
      (addPlayer "Bob" initState).1.players :=
  ⟨by decide, (leaderboard_totals_ordering (addPlayer "Bob" initState).1 (by decide)).1⟩

/-- C8: A registered player with no guess in any answered round has a
leaderboard total of exactly 0 (and appears with total 0 in the ranking),
and every per-round cell for that player is the "no guess" marker `none`,
not a numeric score. -/
theorem leaderboard_no_guess_player (s : GameState) (p : String)
    (hnd : s.players.Nodup) (hp : p ∈ s.players)
    (hng : ∀ rd ∈ s.rounds, rd.answer_xy.isSome → lookupKey p rd.guesses = none) :
    lookupKey p (leaderboardTotals s) = some 0 ∧
    (p, 0) ∈ ranked s ∧
    ∀ row ∈ roundRows s, lookupKey p row = some none := by
  have htot : totalFor s p = 0 := by
    rw [totalFor]
    apply List.sum_eq_zero
    intro v hv
    rw [List.mem_map] at hv
    obtain ⟨rd, hrd, rfl⟩ := hv
    cases ha : rd.answer_xy with
    | none => exact contribOf_unanswered p rd ha
    | some a =>
      have hl : lookupKey p rd.guesses = none := hng rd hrd (by simp [ha])
      simp [contribOf, ha, hl]
  refine ⟨?_, ?_, ?_⟩
  · rw [leaderboardTotals_eq_map s hnd,
      lookupKey_map_self (fun q => totalFor s q) p s.players hp, htot]
  · show (p, 0) ∈ (leaderboardTotals s).mergeSort (fun a b => decide (b.2 ≤ a.2))
    rw [List.mem_mergeSort, leaderboardTotals_eq_map s hnd]
    have hmem : (p, totalFor s p) ∈ s.players.map fun q => (q, totalFor s q) :=
      List.mem_map_of_mem _ hp
    rwa [htot] at hmem
  · intro row hrow
    simp only [roundRows, List.mem_filterMap] at hrow
    obtain ⟨rd, hrd, hmap⟩ := hrow
    rw [Option.map_eq_some'] at hmap
    obtain ⟨a, ha, rfl⟩ := hmap
    rw [lookupKey_map_self (fun q => roundCell rd a q) p s.players hp]
    have hl : lookupKey p rd.guesses = none := hng rd hrd (by simp [ha])
    simp [roundCell, hl]

theorem leaderboard_no_guess_witness :
    ((setAnswer "t0" 2 2
        (addRound "t0" "m.png" 3 4 (addPlayer "Bob" initState).1).1).1.players.Nodup ∧
      ("Bob" : String) ∈ (setAnswer "t0" 2 2
        (addRound "t0" "m.png" 3 4 (addPlayer "Bob" initState).1).1).1.players) ∧
    ("Bob", 0) ∈ ranked
      (setAnswer "t0" 2 2 (addRound "t0" "m.png" 3 4 (addPlayer "Bob" initState).1).1).1 :=
  ⟨⟨by decide, by decide⟩,
    (leaderboard_no_guess_player
        (setAnswer "t0" 2 2 (addRound "t0" "m.png" 3 4 (addPlayer "Bob" initState).1).1).1
        "Bob" (by decide) (by decide) (by decide)).2.1⟩

/-- C3: Every mutating operation that reports an error leaves the session
state exactly as it was (one conjunct per public mutating operation). -/
theorem mutators_atomic_on_error (s : GameState) (name rid tok mapRef p : String)
    (x y w h idx : Int) :
    ((addPlayer name s).2.isSome → (addPlayer name s).1 = s) ∧
    ((removePlayer name s).2.isSome → (removePlayer name s).1 = s) ∧
    ((addRound tok mapRef w h s).2.isSome → (addRound tok mapRef w h s).1 = s) ∧
    ((setAnswer rid x y s).2.isSome → (setAnswer rid x y s).1 = s) ∧
    ((recordGuess rid p x y s).2.isSome → (recordGuess rid p x y s).1 = s) ∧
    ((gotoRound idx s).2.isSome → (gotoRound idx s).1 = s) ∧
    ((resetGame s).2.isSome → (resetGame s).1 = s) := by
  refine ⟨?_, ?_, ?_, ?_, ?_, ?_, ?_⟩
  · by_cases h1 : pyStrip name = ""
    · simp [addPlayer, h1]
    · by_cases h2 : player_exists (pyStrip name) s.players <;>
        simp [addPlayer, h1, h2]
  · simp [removePlayer]
  · simp [addRound]
  · unfold setAnswer
    cases findRound rid s.rounds <;> simp
  · intro hsome
    unfold recordGuess at hsome ⊢
    cases hf : findRound rid s.rounds with
    | none => rfl
    | some rd =>
      rw [hf] at hsome
      cases ha : rd.answer_xy with
      | none => simp [ha]
      | some a =>
        by_cases hp : p = "" ∨ p ∉ s.players
        · simp [ha, hp]
        · simp [ha, hp] at hsome
  · by_cases hidx : idx < 0 ∨ (s.rounds.length : Int) ≤ idx <;>
      simp [gotoRound, hidx]
  · simp [resetGame]

theorem mutators_atomic_witness :
    (addPlayer "" initState).2.isSome ∧ (addPlayer "" initState).1 = initState :=
  ⟨by decide,
    (mutators_atomic_on_error initState "" "" "" "" "" 0 0 0 0 0).1 (by decide)⟩

/-- C4: `addPlayer` fails with the empty-name error when the name trims to
nothing, fails with the duplicate error exactly when a registered player's
name is fold-equal to the trimmed input, and in particular adding `" Bob "`
then `"bob"` fails as a duplicate. -/
theorem addPlayer_empty_and_duplicate (s : GameState) (raw : String) :
    (pyStrip raw = "" → addPlayer raw s = (s, some .emptyName)) ∧
    (pyStrip raw ≠ "" →
      ((addPlayer raw s).2 = some .duplicatePlayer ↔
        ∃ p ∈ s.players, normalize_player_name p = normalize_player_name (pyStrip raw))) ∧
    (addPlayer "bob" (addPlayer " Bob " initState).1).2 = some .duplicatePlayer := by
  refine ⟨fun hempty => ?_, fun hne => ?_, by decide⟩
  · simp [addPlayer, hempty]
  · have hiff : (addPlayer raw s).2 = some Err.duplicatePlayer
        ↔ player_exists (pyStrip raw) s.players = true := by
      by_cases hex : player_exists (pyStrip raw) s.players <;>
        simp [addPlayer, hne, hex]
    rw [hiff, player_exists, List.any_eq_true]
    constructor
    · intro ⟨p, hp, hb⟩
      exact ⟨p, hp, by simpa using hb⟩
    · intro ⟨p, hp, hb⟩
      exact ⟨p, hp, by simpa using hb⟩

theorem addPlayer_duplicate_witness :
    pyStrip "bob" ≠ "" ∧
    ∃ p ∈ (addPlayer " Bob " initState).1.players,
      normalize_player_name p = normalize_player_name (pyStrip "bob") :=
  ⟨by decide,
    ((addPlayer_empty_and_duplicate (addPlayer " Bob " initState).1 "bob").2.1
        (by decide)).mp
      (addPlayer_empty_and_duplicate initState " Bob ").2.2⟩

/-- C5: `removePlayer` never fails, removes the first exact-match entry of
the player list (a no-op when absent), deletes that exact name's guess
entry from every round — afterwards no round's guess mapping contains the
name — and leaves every other player's guesses untouched. -/
theorem removePlayer_removes_and_purges (name : String) (s : GameState) :
    (removePlayer name s).2 = none ∧
    (removePlayer name s).1.players = s.players.erase name ∧
    (∀ rd ∈ (removePlayer name s).1.rounds, lookupKey name rd.guesses = none) ∧
    (∀ p, p ≠ name →
      (removePlayer name s).1.rounds.map (fun rd => lookupKey p rd.guesses)
        = s.rounds.map (fun rd => lookupKey p rd.guesses)) := by
  refine ⟨rfl, ?_, ?_, ?_⟩
  · by_cases hmem : name ∈ s.players
    · simp [removePlayer, hmem]
    · simp [removePlayer, hmem, List.erase_of_not_mem hmem]
  · intro rd hrd
    simp only [removePlayer, List.mem_map] at hrd
    obtain ⟨rd₀, -, rfl⟩ := hrd
    exact lookupKey_alErase_self name rd₀.guesses
  · intro p hpn
    simp only [removePlayer, List.map_map]
    refine List.map_congr_left fun rd _ => ?_
    exact lookupKey_alErase_ne p name hpn rd.guesses

theorem removePlayer_purges_witness :
    ("Alice" : String) ≠ "Bob" ∧
    (removePlayer "Bob"
        (recordGuess "t0" "Bob" 1 1
          (setAnswer "t0" 2 2
            (addRound "t0" "m.png" 3 4 (addPlayer "Bob" initState).1).1).1).1).1.rounds.map
        (fun rd => lookupKey "Alice" rd.guesses)
      = (recordGuess "t0" "Bob" 1 1
          (setAnswer "t0" 2 2
            (addRound "t0" "m.png" 3 4 (addPlayer "Bob" initState).1).1).1).1.rounds.map
        (fun rd => lookupKey "Alice" rd.guesses) :=
  ⟨by decide,
    (removePlayer_removes_and_purges "Bob"
        (recordGuess "t0" "Bob" 1 1
          (setAnswer "t0" 2 2
            (addRound "t0" "m.png" 3 4 (addPlayer "Bob" initState).1).1).1).1).2.2.2
      "Alice" (by decide)⟩

/-- C6 counterexample: with width 0 (non-positive), `addRound` does not
fail at all — it reports no error and appends the round — contradicting
the claimed `InvalidDimensions` failure (no such check exists in the code). -/
theorem addRound_no_dimension_check :
    (addRound "t0" "m.png" 0 5 initState).2 = none ∧
    (addRound "t0" "m.png" 0 5 initState).1.rounds.length = 1 := by
  decide

/-- C6 (amended): `addRound` performs no dimension validation and never
fails; for every width and height it appends a new round with the supplied
token, map reference and dimensions, no answer and no guesses, and sets
the current round index to the new round's position; a token distinct from
all existing round tokens keeps the round tokens unique. -/
theorem addRound_appends_and_switches (tok mapRef : String) (w h : Int) (s : GameState) :
    addRound tok mapRef w h s
      = ({ s with
            rounds := s.rounds ++ [{ id := tok, map_filename := mapRef, map_size := (w, h) }],
            current_round_index := (s.rounds.length : Int) }, none) ∧
    ((s.rounds.map Round.id).Nodup → tok ∉ s.rounds.map Round.id →
      ((addRound tok mapRef w h s).1.rounds.map Round.id).Nodup) := by
  refine ⟨rfl, fun hnd hfresh => ?_⟩
  show ((s.rounds ++ [({ id := tok, map_filename := mapRef, map_size := (w, h) } : Round)]).map
      Round.id).Nodup
  rw [List.map_append, List.nodup_append]
  refine ⟨hnd, List.nodup_singleton _, ?_⟩
  intro a ha hat
  simp only [List.map_cons, List.map_nil, List.mem_singleton] at hat
  exact hfresh (hat ▸ ha)

theorem addRound_appends_witness :
    ((initState.rounds.map Round.id).Nodup ∧ "t0" ∉ initState.rounds.map Round.id) ∧
    ((addRound "t0" "m.png" 3 4 initState).1.rounds.map Round.id).Nodup :=
  ⟨⟨by decide, by decide⟩,
    (addRound_appends_and_switches "t0" "m.png" 3 4 initState).2 (by decide) (by decide)⟩

/-- C7: recording a guess on an existing round whose answer is unset is
rejected with the answer-not-set error and leaves the session (hence the
round's guess mapping) unchanged. -/
theorem recordGuess_rejected_without_answer (s : GameState) (rid p : String)
    (x y : Int) (rd : Round) (hfind : findRound rid s.rounds = some rd)
    (hans : rd.answer_xy = none) (hp : p ∈ s.players) :
    recordGuess rid p x y s = (s, some .answerNotSet) := by
  unfold recordGuess
  rw [hfind]
  simp [hans]

theorem recordGuess_rejected_witness :
    (findRound "t0" ((addRound "t0" "m.png" 3 4 (addPlayer "Bob" initState).1).1).rounds
        = some { id := "t0", map_filename := "m.png", map_size := (3, 4) } ∧
      ("Bob" : String) ∈ ((addRound "t0" "m.png" 3 4 (addPlayer "Bob" initState).1).1).players) ∧
    recordGuess "t0" "Bob" 1 1 ((addRound "t0" "m.png" 3 4 (addPlayer "Bob" initState).1).1)
      = ((addRound "t0" "m.png" 3 4 (addPlayer "Bob" initState).1).1, some .answerNotSet) :=
  ⟨⟨by decide, by decide⟩,
    recordGuess_rejected_without_answer
      ((addRound "t0" "m.png" 3 4 (addPlayer "Bob" initState).1).1) "t0" "Bob" 1 1
      { id := "t0", map_filename := "m.png", map_size := (3, 4) }
      (by decide) (by decide) (by decide)⟩

end GeoGuesser

namespace GeoGuesser

theorem mem_alInsert (k : String) (v : Int × Int) (l : Guesses) (e : String × (Int × Int))
    (he : e ∈ alInsert k v l) : e = (k, v) ∨ e ∈ l := by
  induction l with
  | nil => simpa [alInsert] using he
  | cons x xs ih =>
    simp only [alInsert] at he
    by_cases hx : x.1 = k
    · rw [if_pos hx] at he
      rcases List.mem_cons.mp he with h | h
      · exact Or.inl h
      · exact Or.inr (List.mem_cons_of_mem x h)
    · rw [if_neg hx] at he
      rcases List.mem_cons.mp he with h | h
      · exact Or.inr (h ▸ List.mem_cons_self x xs)
      · rcases ih h with h' | h'
        · exact Or.inl h'
        · exact Or.inr (List.mem_cons_of_mem x h')

theorem mem_alErase (k : String) (l : Guesses) (e : String × (Int × Int))
    (he : e ∈ alErase k l) : e ∈ l := by
  induction l with
  | nil => simpa [alErase] using he
  | cons x xs ih =>
    simp only [alErase] at he
    by_cases hx : x.1 = k
    · rw [if_pos hx] at he
      exact List.mem_cons_of_mem x (ih he)
    · rw [if_neg hx] at he
      rcases List.mem_cons.mp he with h | h
      · exact h ▸ List.mem_cons_self x xs
      · exact List.mem_cons_of_mem x (ih h)

theorem mem_alErase_ne (k : String) (l : Guesses) (e : String × (Int × Int))
    (he : e ∈ alErase k l) : e.1 ≠ k := by
  induction l with
  | nil => simp [alErase] at he
  | cons x xs ih =>
    simp only [alErase] at he
    by_cases hx : x.1 = k
    · rw [if_pos hx] at he
      exact ih he
    · rw [if_neg hx] at he
      rcases List.mem_cons.mp he with h | h
      · rw [h]; exact hx
      · exact ih h

theorem mem_updateFirst (rid : String) (f : Round → Round) (l : List Round) (r : Round)
    (hr : r ∈ updateFirst rid f l) : r ∈ l ∨ ∃ r₀ ∈ l, r = f r₀ := by
  induction l with
  | nil => simp [updateFirst] at hr
  | cons x xs ih =>
    simp only [updateFirst] at hr
    by_cases hx : x.id = rid
    · rw [if_pos hx] at hr
      rcases List.mem_cons.mp hr with h | h
      · exact Or.inr ⟨x, List.mem_cons_self x xs, h⟩
      · exact Or.inl (List.mem_cons_of_mem x h)
    · rw [if_neg hx] at hr
      rcases List.mem_cons.mp hr with h | h
      · exact Or.inl (h ▸ List.mem_cons_self x xs)
      · rcases ih h with h' | ⟨r₀, hr₀, hrf⟩
        · exact Or.inl (List.mem_cons_of_mem x h')
        · exact Or.inr ⟨r₀, List.mem_cons_of_mem x hr₀, hrf⟩

/-- C10: In every session state reachable from the initial empty session
via the public operations, every key of every round's guess mapping is a
currently registered player name. -/
theorem reachable_guess_keys_registered (s : GameState) (hs : Reachable s) :
    GuessKeysRegistered s := by
  induction hs with
  | init =>
    intro rd hrd e he
    simp [initState] at hrd
  | addPlayer name hprev ih =>
    rename_i s
    intro rd hrd e he
    by_cases h1 : pyStrip name = ""
    · simp only [addPlayer, h1, if_pos] at hrd ⊢
      exact ih rd hrd e he
    · by_cases h2 : player_exists (pyStrip name) s.players
      · simp [addPlayer, h1, h2] at hrd ⊢
        exact ih rd hrd e he
      · simp [addPlayer, h1, h2] at hrd ⊢
        exact Or.inl (ih rd hrd e he)
  | removePlayer name hprev ih =>
    rename_i s
    intro rd hrd e he
    simp only [removePlayer, List.mem_map] at hrd
    obtain ⟨rd₀, hrd₀, rfl⟩ := hrd
    have he' : e ∈ rd₀.guesses := mem_alErase name _ e (by simpa using he)
    have hne : e.1 ≠ name := mem_alErase_ne name _ e (by simpa using he)
    have hmem : e.1 ∈ s.players := ih rd₀ hrd₀ e he'
    show e.1 ∈ (removePlayer name s).1.players
    simp only [removePlayer]
    by_cases hn : name ∈ s.players
    · rw [if_pos hn]
      exact (List.mem_erase_of_ne hne).mpr hmem
    · rw [if_neg hn]
      exact hmem
  | addRound tok mapRef w h hprev ih =>
    rename_i s
    intro rd hrd e he
    simp only [addRound] at hrd ⊢
    rcases List.mem_append.mp hrd with h1 | h1
    · exact ih rd h1 e he
    · rw [List.mem_singleton] at h1
      subst h1
      simp at he
  | setAnswer rid x y hprev ih =>
    rename_i s
    intro rd hrd e he
    unfold setAnswer at hrd ⊢
    cases hf : findRound rid s.rounds with
    | none =>
      rw [hf] at hrd
      exact ih rd hrd e he
    | some r₁ =>
      rw [hf] at hrd
      have hrd' : rd ∈ updateFirst rid
          (fun rd => { rd with answer_xy := some (x, y) }) s.rounds := hrd
      rcases mem_updateFirst _ _ _ _ hrd' with h1 | ⟨r₀, hr₀, rfl⟩
      · exact ih rd h1 e he
      · exact ih r₀ hr₀ e he
  | recordGuess rid p x y hprev ih =>
    rename_i s
    intro rd hrd e he
    unfold recordGuess at hrd ⊢
    cases hf : findRound rid s.rounds with
    | none =>
      rw [hf] at hrd
      exact ih rd hrd e he
    | some rd₁ =>
      rw [hf] at hrd
      cases ha : rd₁.answer_xy with
      | none =>
        simp only [ha] at hrd ⊢
        exact ih rd hrd e he
      | some a =>
        by_cases hp : p = "" ∨ p ∉ s.players
        · simp only [ha, if_pos hp] at hrd ⊢
          exact ih rd hrd e he
        · simp only [ha, if_neg hp] at hrd ⊢
          have hrd' : rd ∈ updateFirst rid
              (fun r => { r with guesses := alInsert p (x, y) r.guesses }) s.rounds := hrd
          rcases mem_updateFirst _ _ _ _ hrd' with h1 | ⟨r₀, hr₀, rfl⟩
          · exact ih rd h1 e he
          · rcases mem_alInsert p (x, y) r₀.guesses e (by simpa using he) with h2 | h2
            · rw [h2]
              rcases not_or.mp hp with ⟨-, hnn⟩
              exact not_not.mp hnn
            · exact ih r₀ hr₀ e h2
  | gotoRound idx hprev ih =>
    rename_i s
    intro rd hrd e he
    by_cases hi : idx < 0 ∨ (s.rounds.length : Int) ≤ idx
    · simp only [gotoRound, if_pos hi] at hrd ⊢
      exact ih rd hrd e he
    · simp only [gotoRound, if_neg hi] at hrd ⊢
      exact ih rd hrd e he
  | reset hprev ih =>
    intro rd hrd e he
    simp [resetGame] at hrd

theorem reachable_guess_keys_witness :
    Reachable (recordGuess "t0" "Bob" 1 1
        (setAnswer "t0" 2 2
          (addRound "t0" "m.png" 3 4 (addPlayer "Bob" initState).1).1).1).1 ∧
    GuessKeysRegistered (recordGuess "t0" "Bob" 1 1
        (setAnswer "t0" 2 2
          (addRound "t0" "m.png" 3 4 (addPlayer "Bob" initState).1).1).1).1 := by
  have hreach : Reachable (recordGuess "t0" "Bob" 1 1
      (setAnswer "t0" 2 2
        (addRound "t0" "m.png" 3 4 (addPlayer "Bob" initState).1).1).1).1 :=
    Reachable.recordGuess "t0" "Bob" 1 1
      (Reachable.setAnswer "t0" 2 2
        (Reachable.addRound "t0" "m.png" 3 4
          (Reachable.addPlayer "Bob" Reachable.init)))
  exact ⟨hreach, reachable_guess_keys_registered _ hreach⟩

end GeoGuesser
